import Mathlib

/-!
# Recent-files list and derived widget state of `src/ui_utils.c`

A shallow embedding of the recent-files (MRU) code of `ui_utils.c`:
`ui_add_recent_file`, `recent_file_loaded`, `update_recent_menu`, `ui_create_recent_menu` and
`recent_file_activate_cb`, together with the GLib queue primitives they call.  The queue
`app->recent_queue` is a list of strings with the head of the queue first; the children of the menu
`recent_files1_menu` are the list of their labels, first child first.

The file also embeds `ui_set_statusbar`, `ui_save_buttons_toggle`, `is_c_header` and the
sensitivity of the compile and run buttons set by `ui_update_build_menu`.
-/

namespace Geany

/-! ## GLib queue primitives -/

/-- The call `g_queue_find_custom (queue, data, (GCompareFunc) strcmp)`: the first element of the
queue for which `strcmp` against `data` gives 0, or `none` (the C `NULL`). -/
def g_queue_find_custom (queue : List String) (data : String) : Option String :=
  queue.find? (fun s => decide (s = data))

/-- The call `g_queue_push_head`: a new element at the head. -/
def g_queue_push_head (queue : List String) (data : String) : List String :=
  data :: queue

/-- The queue left by `g_queue_pop_tail`: the last element is removed (nothing for an empty
queue). -/
def g_queue_pop_tail (queue : List String) : List String :=
  queue.dropLast

/-- The call `g_queue_remove`: the first element holding `data` is removed. -/
def g_queue_remove (queue : List String) (data : String) : List String :=
  queue.erase data

/-- The call `g_queue_get_length`. -/
def g_queue_get_length (queue : List String) : Nat :=
  queue.length

/-! ## Application state -/

/-- The part of the global `app` (and of the widget tree below `app->window`) that the
recent-files code reads and writes.

* `recent_queue`: `app->recent_queue`, head first.
* `mru_length`: `app->mru_length`.  The field is declared in `geany.h`; it is taken here as a
  count, so that the comparisons against the unsigned queue length are comparisons of naturals.
* `recent_menu`: labels of the children of the menu `recent_files1_menu`, first child first.
* `recent_files_sensitive`: sensitivity of the menu item `recent_files1`.
* `criticals`: how many times a `g_return_if_fail` guard has failed (each failure logs a critical
  warning and returns from the function). -/
structure App where
  recent_queue : List String
  mru_length : Nat
  recent_menu : List String
  recent_files_sensitive : Bool
  criticals : Nat
deriving DecidableEq, Repr

/-! ## The recent-files functions -/

/-- The function `update_recent_menu` (lines 1277-1313).  With an empty queue the item
`recent_files1` is made insensitive and nothing else happens.  Otherwise the item is made
sensitive, the menu children from index `mru_length - 1` on are destroyed when there are more than
`mru_length - 1` of them (the subtraction and the comparison are those of C on 32-bit integers, so
for `mru_length = 0` the bound is `2^32 - 1`), and an item for the head of the queue is
prepended. -/
def update_recent_menu (app : App) : App :=
  if g_queue_get_length app.recent_queue = 0 then
    { app with recent_files_sensitive := false }
  else
    let bound : Nat := (((app.mru_length : Int) - 1) % (2 : Int) ^ 32).toNat
    let children := app.recent_menu
    let children := if children.length % 2 ^ 32 > bound then children.take bound else children
    match app.recent_queue.head? with
    | none => { app with recent_files_sensitive := true, recent_menu := children }
    | some filename =>
      { app with recent_files_sensitive := true, recent_menu := filename :: children }

/-- The function `recent_file_loaded` (lines 1233-1274).  The lookup of the file name in the queue
is guarded by `g_return_if_fail (item != NULL)`.  When the name is found, its queue element is
removed and pushed at the head, the first menu item whose text equals the name is destroyed and a
new item for the name is prepended to the menu. -/
def recent_file_loaded (app : App) (utf8_filename : String) : App :=
  match g_queue_find_custom app.recent_queue utf8_filename with
  | none => { app with criticals := app.criticals + 1 }
  | some data =>
    { app with
      recent_queue := g_queue_push_head (g_queue_remove app.recent_queue data) data,
      recent_menu := utf8_filename :: app.recent_menu.erase utf8_filename }

/-- The function `ui_add_recent_file` (lines 1201-1213). -/
def ui_add_recent_file (app : App) (utf8_filename : String) : App :=
  match g_queue_find_custom app.recent_queue utf8_filename with
  | none =>
    let queue := g_queue_push_head app.recent_queue utf8_filename
    let queue := if g_queue_get_length queue > app.mru_length then g_queue_pop_tail queue else queue
    update_recent_menu { app with recent_queue := queue }
  | some _ => recent_file_loaded app utf8_filename

/-- A finite sequence of `ui_add_recent_file` calls, in the order of the list. -/
def ui_add_recent_files (app : App) (calls : List String) : App :=
  calls.foldl ui_add_recent_file app

/-- The states after each call of a sequence of `ui_add_recent_file` calls. -/
def ui_add_recent_files_trace : App → List String → List App
  | _, [] => []
  | app, f :: calls => ui_add_recent_file app f :: ui_add_recent_files_trace (ui_add_recent_file app f) calls

/-- The call `g_queue_peek_nth`: the element at index `n`, or `none` (the C `NULL`) past the
end. -/
def g_queue_peek_nth (queue : List String) (n : Nat) : Option String :=
  queue.get? n

/-- The function `ui_create_recent_menu` (lines 1160-1183).  With an empty queue the item
`recent_files1` is made insensitive and nothing else happens.  Otherwise the loop runs `i` from 0
up to `MIN (mru_length, length of the queue)` and appends to the menu an item labelled with the
queue element at index `i`. -/
def ui_create_recent_menu (app : App) : App :=
  if g_queue_get_length app.recent_queue = 0 then
    { app with recent_files_sensitive := false }
  else
    { app with
      recent_menu :=
        (List.range (min app.mru_length (g_queue_get_length app.recent_queue))).foldl
          (fun menu i =>
            match g_queue_peek_nth app.recent_queue i with
            | some filename => menu ++ [filename]
            | none => menu)
          app.recent_menu }

/-- The callback `recent_file_activate_cb` (lines 1186-1198).  `menuitem` is the text of the
activated menu item, as `menu_item_get_text` returns it.  The function `document_open_file` is
defined in `document.c`: `document_open_file` here is the value it returns and `app` is the state
in which it returns. -/
def recent_file_activate_cb (app : App) (menuitem : String) (document_open_file : Int) : App :=
  let utf8_filename := menuitem
  if document_open_file > -1 then recent_file_loaded app utf8_filename else app

/-! ## Operations of the specification without code in `ui_utils.c` -/

/-- The failure of `set_capacity`. -/
inductive SetCapacityError where
  | InvalidArgument
deriving DecidableEq, Repr

/-- Modelled from the spec: the operation `set_capacity(n)`.  The file `ui_utils.c` only reads
`app->mru_length`; the code that writes it is not in this file.  By the specification the operation
fails with `InvalidArgument` for `n < 0`, leaving the state as it was; otherwise it updates the
capacity and, when the list is longer than `n`, trims it from the back at once, one entry at a
time, down to `n` entries.  The result is the error, if any, and the state that is left. -/
def set_capacity (app : App) (n : Int) : Option SetCapacityError × App :=
  if n < 0 then (some SetCapacityError.InvalidArgument, app)
  else
    (none,
      { app with
        mru_length := n.toNat,
        recent_queue :=
          if app.recent_queue.length > n.toNat then
            Nat.iterate g_queue_pop_tail (app.recent_queue.length - n.toNat) app.recent_queue
          else app.recent_queue })

/-! ## Status bar -/

/-- The state that `ui_set_statusbar` reads and writes: the message stack of context 1 of
`app->statusbar`, top (the text that is shown) first, and the static variable `last_time`. -/
structure StatusBar where
  messages : List String
  last_time : Int
deriving DecidableEq, Repr

/-- The call `gtk_statusbar_pop`: the top message is removed (nothing for an empty stack). -/
def gtk_statusbar_pop (messages : List String) : List String :=
  messages.tail

/-- The call `gtk_statusbar_push`: a new message on top of the stack. -/
def gtk_statusbar_push (messages : List String) (text : String) : List String :=
  text :: messages

/-- The local constant `GEANY_STATUS_TIMEOUT` of `ui_set_statusbar`. -/
def GEANY_STATUS_TIMEOUT : Int := 1

/-- The sum of two `glong` values as the compiled code computes it: the exact sum when that is a
`glong`, and otherwise the sum wrapped around into the range `-(G_MAXLONG + 1) .. G_MAXLONG`.
`G_MAXLONG` is the largest `glong` of the platform, a constant of the GLib headers (`2^63 - 1`
where `long` has 64 bits, `2^31 - 1` where it has 32). -/
def glong_add (G_MAXLONG : Int) (a b : Int) : Int :=
  (a + b + (G_MAXLONG + 1)) % (2 * (G_MAXLONG + 1)) - (G_MAXLONG + 1)

/-- The function `ui_set_statusbar` (lines 55-77).  `tv_sec` is the field `timeval.tv_sec` that
`g_get_current_time` delivers, the clock in seconds, a `glong` like the static `last_time`; the sum
`last_time + GEANY_STATUS_TIMEOUT` of line 72 is computed in `glong`. -/
def ui_set_statusbar (G_MAXLONG : Int) (s : StatusBar) (tv_sec : Int) (text : String)
    (allow_override : Bool) : StatusBar :=
  if allow_override = false then
    { messages := gtk_statusbar_push (gtk_statusbar_pop s.messages) text, last_time := tv_sec }
  else if tv_sec > glong_add G_MAXLONG s.last_time GEANY_STATUS_TIMEOUT then
    { s with messages := gtk_statusbar_push (gtk_statusbar_pop s.messages) text }
  else s

/-! ## Documents and file types -/

/-- The identifiers of the file types that `ui_update_build_menu` tells apart; the enumeration is
declared in `filetypes.h`, every other identifier is `GEANY_FILETYPES_OTHER`. -/
inductive filetype_id where
  | GEANY_FILETYPES_C
  | GEANY_FILETYPES_CPP
  | GEANY_FILETYPES_LATEX
  | GEANY_FILETYPES_OTHER (n : Nat)
deriving DecidableEq, Repr

/-- The flags of `ft->menu_items` that the build code reads. -/
structure filetype_menu_items where
  can_compile : Bool
  can_link : Bool
  can_exec : Bool
deriving DecidableEq, Repr

/-- The fields of a `filetype` that the build code reads. -/
structure filetype where
  id : filetype_id
  menu_items : filetype_menu_items
deriving DecidableEq, Repr

/-- The fields of an element of `doc_list` that this file reads; `none` is the C `NULL`. -/
structure document where
  is_valid : Bool
  changed : Bool
  file_name : Option String
  file_type : Option filetype
deriving DecidableEq, Repr

/-! ## Save buttons -/

/-- The function `ui_save_buttons_toggle` (lines 582-601).  `save_buttons` gives the sensitivity
of `app->save_buttons[k]`, `doc_list` is the array of documents by index and `n_pages` the number
of notebook pages.  The loop runs `i` from 0 up to `n_pages` and sets `dirty_tabs` the first time
`doc_list[i]` is valid and changed. -/
def ui_save_buttons_toggle (save_buttons : Nat → Bool) (doc_list : Nat → document)
    (n_pages : Nat) (enable : Bool) : Nat → Bool :=
  let save_buttons := Function.update save_buttons 0 enable
  let save_buttons := Function.update save_buttons 1 enable
  let dirty_tabs :=
    (List.range n_pages).foldl
      (fun dirty_tabs i =>
        if (!dirty_tabs && (doc_list i).is_valid && (doc_list i).changed) = true then true
        else dirty_tabs)
      false
  let save_buttons := Function.update save_buttons 2 dirty_tabs
  Function.update save_buttons 3 dirty_tabs

/-! ## Header files and the build buttons -/

/-- The C library function `strrchr` on the characters of a string: the rest of the string from
the last occurrence of `c` on, or `none` (the C `NULL`) when `c` does not occur. -/
def strrchr : List Char → Char → Option (List Char)
  | [], _ => none
  | x :: xs, c =>
    match strrchr xs c with
    | some ext => some ext
    | none => if x = c then some (x :: xs) else none

/-- The function `is_c_header` (lines 627-636); `none` is a `NULL` name.  The character
`*(ext + 1)` is the one after the dot that `strrchr` found, the terminating NUL when the dot is
the last character of the name. -/
def is_c_header (fname : Option String) : Bool :=
  let ext : Option (List Char) :=
    match fname with
    | some name => strrchr name.data '.'
    | none => none
  match ext with
  | none => false
  | some ext => decide (ext.getD 1 (Char.ofNat 0) = 'h')

/-- The sensitivities that `ui_update_build_menu` sets outside the build submenu: the menu item
`menu_build1`, `app->compile_button` and `app->run_button`.  The submenu and its items are not
part of this state. -/
structure BuildWidgets where
  menu_build1 : Bool
  compile_button : Bool
  run_button : Bool
deriving DecidableEq, Repr

/-- The flags of `ft->menu_items` after the block `#ifdef G_OS_WIN32` of `ui_update_build_menu`:
under Windows compile and link are switched off. -/
def menu_items_after_ifdef (g_os_win32 : Bool) (menu_items : filetype_menu_items) :
    filetype_menu_items :=
  if g_os_win32 = true then { menu_items with can_compile := false, can_link := false }
  else menu_items

/-- The function `ui_update_build_menu` (lines 639-722), as far as `menu_build1`, the compile
button and the run button go.  `g_os_win32` tells whether `G_OS_WIN32` is defined, `doc_list` is
the array of documents by index. -/
def ui_update_build_menu (g_os_win32 : Bool) (doc_list : Nat → document) (w : BuildWidgets)
    (idx : Int) : BuildWidgets :=
  if idx = -1 then
    { w with menu_build1 := false, compile_button := false, run_button := false }
  else
    match (doc_list idx.toNat).file_type with
    | none => { w with menu_build1 := false, compile_button := false, run_button := false }
    | some ft =>
      let w := { w with menu_build1 := true }
      let menu_items := menu_items_after_ifdef g_os_win32 ft.menu_items
      let have_path := (doc_list idx.toNat).file_name.isSome
      match ft.id with
      | filetype_id.GEANY_FILETYPES_LATEX =>
        { w with
          compile_button := have_path && menu_items.can_compile,
          run_button := have_path && menu_items.can_exec }
      | filetype_id.GEANY_FILETYPES_C | filetype_id.GEANY_FILETYPES_CPP =>
        let w := { w with run_button := have_path && menu_items.can_exec }
        let have_path := have_path && !is_c_header (doc_list idx.toNat).file_name
        { w with compile_button := have_path && menu_items.can_compile }
      | filetype_id.GEANY_FILETYPES_OTHER _ =>
        { w with
          compile_button := have_path && menu_items.can_compile,
          run_button := have_path && menu_items.can_exec }

/-! ## Reference definitions -/

/-- The distinct elements of a list, each at the place of its first occurrence. -/
def keep_first : List String → List String
  | [] => []
  | f :: rest => f :: (keep_first rest).filter (fun g => decide (g ≠ f))

/-- The distinct file names of a sequence of calls (given in the order of the calls), ordered by
their last touch, latest first. -/
def latest_first (calls : List String) : List String :=
  keep_first calls.reverse

/-- The position (counted from 1) of the last call on `f` in a sequence of calls, and 0 when `f` is
never touched: a larger value is a later last touch. -/
def last_touch (calls : List String) (f : String) : Nat :=
  calls.length - calls.reverse.indexOf f

/-- The pattern `*.h*` on the characters of a name: somewhere in the name a `.` is immediately
followed by `h`. -/
def matches_dot_h : List Char → Bool
  | [] => false
  | x :: xs => (decide (x = '.') && decide (xs.head? = some 'h')) || matches_dot_h xs

/-- The queue step that `ui_add_recent_file` performs, on the list alone. -/
def queue_step (c : Nat) (q : List String) (f : String) : List String :=
  if f ∈ q then f :: q.erase f
  else if q.length + 1 > c then (f :: q).dropLast
  else f :: q

/-! ## Example states -/

/-- A list of two entries below its capacity of three, with the menu in step. -/
def app_two_of_three : App :=
  { recent_queue := ["b.txt", "a.txt"], mru_length := 3, recent_menu := ["b.txt", "a.txt"],
    recent_files_sensitive := true, criticals := 0 }

/-- The state at start-up without persisted entries, capacity three. -/
def app_empty_three : App :=
  { recent_queue := [], mru_length := 3, recent_menu := [],
    recent_files_sensitive := false, criticals := 0 }

/-- The state at start-up without persisted entries, capacity zero. -/
def app_empty_zero : App :=
  { recent_queue := [], mru_length := 0, recent_menu := [],
    recent_files_sensitive := false, criticals := 0 }

/-- A pre-populated list of three entries with capacity one; the menu built from it by
`ui_create_recent_menu` shows its first entry. -/
def app_three_of_one : App :=
  { recent_queue := ["a.txt", "b.txt", "c.txt"], mru_length := 1, recent_menu := ["a.txt"],
    recent_files_sensitive := true, criticals := 0 }

/-- A list of three entries that fills its capacity of three, with the menu in step. -/
def app_three_of_three : App :=
  { recent_queue := ["c.txt", "b.txt", "a.txt"], mru_length := 3,
    recent_menu := ["c.txt", "b.txt", "a.txt"], recent_files_sensitive := true, criticals := 0 }

/-- A pre-populated list of three entries with capacity five, before the menu is built. -/
def app_three_of_five_no_menu : App :=
  { recent_queue := ["c.txt", "b.txt", "a.txt"], mru_length := 5,
    recent_menu := [], recent_files_sensitive := true, criticals := 0 }

/-- A status bar that shows `ready`, set at second 100. -/
def statusbar_ready : StatusBar :=
  { messages := ["ready"], last_time := 100 }

/-- The largest `glong` where `long` has 64 bits. -/
def G_MAXLONG_64 : Int := 9223372036854775807

/-- A C source file with a name, of a file type that can compile and run. -/
def doc_main_c : document :=
  { is_valid := true, changed := true, file_name := some "main.c",
    file_type := some { id := filetype_id.GEANY_FILETYPES_C,
                        menu_items := { can_compile := true, can_link := true, can_exec := true } } }

/-- A C header file with a name, of a file type that can compile and run. -/
def doc_main_h : document :=
  { is_valid := true, changed := false, file_name := some "main.h",
    file_type := some { id := filetype_id.GEANY_FILETYPES_C,
                        menu_items := { can_compile := true, can_link := true, can_exec := true } } }

/-- A document array with the header at index 0 and the source file everywhere else. -/
def doc_list_example (i : Nat) : document :=
  if i = 0 then doc_main_h else doc_main_c

/-- Build widgets that are all insensitive. -/
def build_widgets_off : BuildWidgets :=
  { menu_build1 := false, compile_button := false, run_button := false }

/-! ## The queue component of the functions -/

theorem g_queue_find_custom_eq_none (q : List String) (f : String) :
    g_queue_find_custom q f = none ↔ f ∉ q := by
  unfold g_queue_find_custom
  rw [List.find?_eq_none]
  constructor
  · intro h hf
    have := h f hf
    simp at this
  · intro h x hx
    simp only [decide_eq_true_eq]
    intro hxf
    exact h (hxf ▸ hx)

theorem g_queue_find_custom_eq_some (q : List String) (f d : String)
    (h : g_queue_find_custom q f = some d) : d = f ∧ f ∈ q := by
  unfold g_queue_find_custom at h
  have h1 := List.find?_some h
  have h2 := List.mem_of_find?_eq_some h
  simp only [decide_eq_true_eq] at h1
  exact ⟨h1, h1 ▸ h2⟩

theorem update_recent_menu_recent_queue (app : App) :
    (update_recent_menu app).recent_queue = app.recent_queue := by
  unfold update_recent_menu
  split
  · rfl
  · dsimp only
    split <;> rfl

theorem update_recent_menu_mru_length (app : App) :
    (update_recent_menu app).mru_length = app.mru_length := by
  unfold update_recent_menu
  split
  · rfl
  · dsimp only
    split <;> rfl

theorem update_recent_menu_criticals (app : App) :
    (update_recent_menu app).criticals = app.criticals := by
  unfold update_recent_menu
  split
  · rfl
  · dsimp only
    split <;> rfl

theorem ui_add_recent_file_recent_queue (app : App) (f : String) :
    (ui_add_recent_file app f).recent_queue = queue_step app.mru_length app.recent_queue f := by
  unfold ui_add_recent_file queue_step
  split
  · next h =>
    have hf := (g_queue_find_custom_eq_none _ _).1 h
    rw [if_neg hf, update_recent_menu_recent_queue]
    simp only [g_queue_push_head, g_queue_get_length, g_queue_pop_tail, List.length_cons]
  · next d h =>
    obtain ⟨hd, hf⟩ := g_queue_find_custom_eq_some _ _ _ h
    rw [if_pos hf]
    unfold recent_file_loaded
    rw [h]
    simp only [g_queue_push_head, g_queue_remove, hd]

theorem ui_add_recent_file_mru_length (app : App) (f : String) :
    (ui_add_recent_file app f).mru_length = app.mru_length := by
  unfold ui_add_recent_file
  split
  · rw [update_recent_menu_mru_length]
  · next d h =>
    unfold recent_file_loaded
    rw [h]

theorem ui_add_recent_files_mru_length (calls : List String) (app : App) :
    (ui_add_recent_files app calls).mru_length = app.mru_length := by
  induction calls generalizing app with
  | nil => rfl
  | cons f calls ih =>
    show (ui_add_recent_files (ui_add_recent_file app f) calls).mru_length = _
    rw [ih, ui_add_recent_file_mru_length]

theorem ui_add_recent_files_recent_queue (calls : List String) (app : App) :
    (ui_add_recent_files app calls).recent_queue
      = calls.foldl (queue_step app.mru_length) app.recent_queue := by
  induction calls generalizing app with
  | nil => rfl
  | cons f calls ih =>
    show (ui_add_recent_files (ui_add_recent_file app f) calls).recent_queue = _
    rw [ih, ui_add_recent_file_mru_length, ui_add_recent_file_recent_queue]
    rfl

/-! ## Facts about the queue step -/

theorem queue_step_length_le (c : Nat) (q : List String) (f : String) (h : q.length ≤ c) :
    (queue_step c q f).length ≤ c := by
  unfold queue_step
  split
  · next hf =>
    rw [List.length_cons, List.length_erase_of_mem hf]
    have := List.length_pos_of_mem hf
    omega
  · split
    · simp only [List.length_dropLast, List.length_cons]
      omega
    · simp only [List.length_cons]
      omega

theorem queue_step_nodup (c : Nat) (q : List String) (f : String) (h : q.Nodup) :
    (queue_step c q f).Nodup := by
  unfold queue_step
  split
  · exact List.nodup_cons.2 ⟨h.not_mem_erase, h.erase f⟩
  · next hf =>
    have hn : (f :: q).Nodup := List.nodup_cons.2 ⟨hf, h⟩
    split
    · exact hn.sublist (List.dropLast_sublist _)
    · exact hn

theorem queue_step_eq_take (c : Nat) (q : List String) (f : String) (h : q.length ≤ c) :
    queue_step c q f = (f :: q.erase f).take c := by
  unfold queue_step
  split
  · next hf =>
    rw [List.take_of_length_le]
    rw [List.length_cons, List.length_erase_of_mem hf]
    have := List.length_pos_of_mem hf
    omega
  · next hf =>
    rw [List.erase_of_not_mem hf]
    split
    · have hc : q.length = c := by omega
      rw [List.dropLast_eq_take, List.length_cons, hc]
      rfl
    · rw [List.take_of_length_le]
      rw [List.length_cons]
      omega

theorem take_filter_ne_of_not_mem (f : String) (D : List String) (n : Nat)
    (h : f ∉ D.take n) : (D.filter (fun g => decide (g ≠ f))).take n = D.take n := by
  induction D generalizing n with
  | nil => rfl
  | cons x D ih =>
    cases n with
    | zero => rfl
    | succ n =>
      rw [List.take_succ_cons, List.mem_cons, not_or] at h
      have hx : x ≠ f := fun e => h.1 e.symm
      rw [List.filter_cons_of_pos (by simpa using hx), List.take_succ_cons, List.take_succ_cons,
        ih n h.2]

theorem erase_take_of_mem (f : String) (D : List String) (n : Nat) (hD : D.Nodup)
    (h : f ∈ D.take (n + 1)) :
    (D.take (n + 1)).erase f = (D.filter (fun g => decide (g ≠ f))).take n := by
  induction D generalizing n with
  | nil => simp at h
  | cons x D ih =>
    rw [List.nodup_cons] at hD
    rw [List.take_succ_cons] at h ⊢
    by_cases hx : x = f
    · subst hx
      rw [List.erase_cons_head, List.filter_cons_of_neg (by simp)]
      have : D.filter (fun g => decide (g ≠ x)) = D := by
        rw [List.filter_eq_self]
        intro a ha
        simp only [ne_eq, decide_not, Bool.not_eq_eq_eq_not, Bool.not_true, decide_eq_false_iff_not]
        rintro rfl
        exact hD.1 ha
      rw [this]
    · rw [List.mem_cons] at h
      have hf : f ∈ D.take n := h.resolve_left (fun e => hx e.symm)
      cases n with
      | zero => simp at hf
      | succ m =>
        rw [List.erase_cons_tail (by simpa using hx), List.filter_cons_of_pos (by simpa using hx),
          List.take_succ_cons, ih m hD.2 hf]

theorem queue_step_take (c : Nat) (D : List String) (f : String) (hD : D.Nodup) :
    queue_step c (D.take c) f = (f :: D.filter (fun g => decide (g ≠ f))).take c := by
  cases c with
  | zero => simp [queue_step]
  | succ n =>
    rw [List.take_succ_cons]
    by_cases hf : f ∈ D.take (n + 1)
    · unfold queue_step
      rw [if_pos hf, erase_take_of_mem f D n hD hf]
    · have hlen : (D.take (n + 1)).length ≤ n + 1 := by
        rw [List.length_take]; omega
      rw [queue_step_eq_take _ _ _ hlen, List.erase_of_not_mem hf, List.take_succ_cons,
        List.take_take, Nat.min_eq_left (Nat.le_succ n)]
      have hf2 : f ∉ D.take n := fun h => hf (List.mem_of_mem_take (by
        rw [List.take_take, Nat.min_eq_left (Nat.le_succ n)]; exact h))
      rw [take_filter_ne_of_not_mem f D n hf2]

theorem keep_first_nodup (l : List String) : (keep_first l).Nodup := by
  induction l with
  | nil => exact List.nodup_nil
  | cons x l ih =>
    unfold keep_first
    rw [List.nodup_cons]
    refine ⟨?_, ih.filter _⟩
    simp [List.mem_filter]

theorem mem_keep_first (l : List String) (g : String) : g ∈ keep_first l ↔ g ∈ l := by
  induction l with
  | nil => simp [keep_first]
  | cons x l ih =>
    unfold keep_first
    by_cases h : g = x
    · simp [h]
    · simp [List.mem_filter, ih, h]

theorem keep_first_of_nodup (l : List String) (h : l.Nodup) : keep_first l = l := by
  induction l with
  | nil => rfl
  | cons x l ih =>
    rw [List.nodup_cons] at h
    unfold keep_first
    rw [ih h.2, List.filter_eq_self.2]
    intro a ha
    simp only [ne_eq, decide_not, Bool.not_eq_eq_eq_not, Bool.not_true, decide_eq_false_iff_not]
    rintro rfl
    exact h.1 ha

theorem latest_first_snoc (calls : List String) (f : String) :
    latest_first (calls ++ [f])
      = f :: (latest_first calls).filter (fun g => decide (g ≠ f)) := by
  unfold latest_first
  rw [List.reverse_append]
  rfl

theorem foldl_queue_step_nil (c : Nat) (calls : List String) :
    calls.foldl (queue_step c) [] = (latest_first calls).take c := by
  induction calls using List.reverseRecOn with
  | nil => simp [latest_first, keep_first]
  | append_singleton calls f ih =>
    rw [List.foldl_append, List.foldl_cons, List.foldl_nil, ih, latest_first_snoc]
    exact queue_step_take c _ f (keep_first_nodup _)

/-! ## Order of last touch -/

theorem keep_first_pairwise (l : List String) :
    (keep_first l).Pairwise (fun a b => l.indexOf a < l.indexOf b) := by
  induction l with
  | nil => exact List.Pairwise.nil
  | cons x l ih =>
    unfold keep_first
    rw [List.pairwise_cons]
    constructor
    · intro b hb
      have hbx : b ≠ x := by simpa using (List.mem_filter.1 hb).2
      rw [List.indexOf_cons_self, List.indexOf_cons_ne _ (Ne.symm hbx)]
      exact Nat.succ_pos _
    · refine List.Pairwise.imp_of_mem ?_ (ih.filter _)
      intro a b ha hb hab
      have hax : a ≠ x := by simpa using (List.mem_filter.1 ha).2
      have hbx : b ≠ x := by simpa using (List.mem_filter.1 hb).2
      rw [List.indexOf_cons_ne _ (Ne.symm hax), List.indexOf_cons_ne _ (Ne.symm hbx)]
      exact Nat.succ_lt_succ hab

theorem latest_first_pairwise (calls : List String) :
    (latest_first calls).Pairwise (fun a b => last_touch calls b < last_touch calls a) := by
  unfold latest_first
  refine List.Pairwise.imp ?_ (keep_first_pairwise calls.reverse)
  intro a b hab
  unfold last_touch
  have hb : calls.reverse.indexOf b ≤ calls.reverse.length := List.indexOf_le_length
  rw [List.length_reverse] at hb
  omega

theorem mem_latest_first (calls : List String) (g : String) :
    g ∈ latest_first calls ↔ g ∈ calls := by
  unfold latest_first
  rw [mem_keep_first, List.mem_reverse]

theorem latest_first_dropped (calls : List String) (c : Nat) (g r : String)
    (hg : g ∈ calls) (hgn : g ∉ (latest_first calls).take c)
    (hr : r ∈ (latest_first calls).take c) : last_touch calls g < last_touch calls r := by
  have hp := latest_first_pairwise calls
  rw [← List.take_append_drop c (latest_first calls), List.pairwise_append] at hp
  have hgm : g ∈ (latest_first calls).take c ++ (latest_first calls).drop c := by
    rw [List.take_append_drop]
    exact (mem_latest_first calls g).2 hg
  rcases List.mem_append.1 hgm with h | h
  · exact absurd h hgn
  · exact hp.2.2 r hr g h

/-! ## The recent-files list: single calls -/

/-- C1. For a list without duplicates whose length is at most the capacity, the list left by
`ui_add_recent_file (f)` is the first `mru_length` elements of `f` followed by the old list with
`f` removed; the entries other than `f` that remain keep the relative order they had. -/
theorem C1_touch_is_take_of_front_insert (app : App) (f : String)
    (hnodup : app.recent_queue.Nodup) (hlen : app.recent_queue.length ≤ app.mru_length) :
    (ui_add_recent_file app f).recent_queue
        = (f :: app.recent_queue.filter (fun g => decide (g ≠ f))).take app.mru_length
      ∧ ((ui_add_recent_file app f).recent_queue.filter (fun g => decide (g ≠ f))).Sublist
          app.recent_queue := by
  have h1 : (ui_add_recent_file app f).recent_queue
      = (f :: app.recent_queue.filter (fun g => decide (g ≠ f))).take app.mru_length := by
    rw [ui_add_recent_file_recent_queue, queue_step_eq_take _ _ _ hlen,
      hnodup.erase_eq_filter]
    simp only [ne_eq, decide_not, bne, BEq.beq]
  refine ⟨h1, ?_⟩
  rw [h1]
  refine ((List.take_sublist _ _).filter _).trans ?_
  rw [List.filter_cons_of_neg (by simp)]
  exact (List.filter_sublist _).trans (List.filter_sublist _)

/-- Witness of C1: touching `c.txt` in the list `b.txt, a.txt` of capacity three. -/
theorem C1_touch_is_take_of_front_insert_witness :
    (ui_add_recent_file app_two_of_three "c.txt").recent_queue
        = ("c.txt" :: app_two_of_three.recent_queue.filter
            (fun g => decide (g ≠ "c.txt"))).take app_two_of_three.mru_length
      ∧ ((ui_add_recent_file app_two_of_three "c.txt").recent_queue.filter
          (fun g => decide (g ≠ "c.txt"))).Sublist app_two_of_three.recent_queue :=
  C1_touch_is_take_of_front_insert app_two_of_three "c.txt" (by decide) (by decide)

/-! ## The recent-files list: histories -/

/-- C2. After any finite sequence of `ui_add_recent_file` calls on an initially empty list, the
list is the first `mru_length` elements of the distinct touched file names ordered by their last
touch, latest first.  That reference order has no duplicates, holds exactly the touched names and
is strictly decreasing in the time of the last touch; so of two entries of the list the earlier one
was touched last after the later one, and a touched name that is not in the list was touched last
before every entry of the list. -/
theorem C2_history_is_mru_order (app : App) (calls : List String)
    (hempty : app.recent_queue = []) :
    (ui_add_recent_files app calls).recent_queue = (latest_first calls).take app.mru_length
      ∧ (latest_first calls).Nodup
      ∧ (∀ g, g ∈ latest_first calls ↔ g ∈ calls)
      ∧ (latest_first calls).Pairwise (fun a b => last_touch calls b < last_touch calls a)
      ∧ (ui_add_recent_files app calls).recent_queue.Pairwise
          (fun a b => last_touch calls b < last_touch calls a)
      ∧ (∀ g, g ∈ calls → g ∉ (ui_add_recent_files app calls).recent_queue →
          ∀ r, r ∈ (ui_add_recent_files app calls).recent_queue →
            last_touch calls g < last_touch calls r) := by
  have h1 : (ui_add_recent_files app calls).recent_queue
      = (latest_first calls).take app.mru_length := by
    rw [ui_add_recent_files_recent_queue, hempty, foldl_queue_step_nil]
  refine ⟨h1, keep_first_nodup _, mem_latest_first calls, latest_first_pairwise calls, ?_, ?_⟩
  · rw [h1]
    exact (latest_first_pairwise calls).sublist (List.take_sublist _ _)
  · rw [h1]
    intro g hg hgn r hr
    exact latest_first_dropped calls _ g r hg hgn hr

/-- Witness of C2: five calls on the empty list of capacity three. -/
theorem C2_history_is_mru_order_witness :
    (ui_add_recent_files app_empty_three
        ["a.txt", "b.txt", "c.txt", "d.txt", "b.txt"]).recent_queue
      = (latest_first ["a.txt", "b.txt", "c.txt", "d.txt", "b.txt"]).take
          app_empty_three.mru_length :=
  (C2_history_is_mru_order app_empty_three ["a.txt", "b.txt", "c.txt", "d.txt", "b.txt"] rfl).1

/-- C3. Starting from any list without duplicates (in particular from the empty list), after any
finite sequence of `ui_add_recent_file` calls the list has no two equal entries. -/
theorem C3_no_duplicates (app : App) (calls : List String) (hnodup : app.recent_queue.Nodup) :
    (ui_add_recent_files app calls).recent_queue.Nodup := by
  induction calls generalizing app with
  | nil => exact hnodup
  | cons f calls ih =>
    show (ui_add_recent_files (ui_add_recent_file app f) calls).recent_queue.Nodup
    apply ih
    rw [ui_add_recent_file_recent_queue]
    exact queue_step_nodup _ _ _ hnodup

/-- Witness of C3: calls with repetitions on the list `b.txt, a.txt`. -/
theorem C3_no_duplicates_witness :
    (ui_add_recent_files app_two_of_three ["a.txt", "c.txt", "a.txt", "d.txt"]).recent_queue.Nodup :=
  C3_no_duplicates app_two_of_three ["a.txt", "c.txt", "a.txt", "d.txt"] (by decide)

/-- C4. Starting from any list whose length is at most the capacity (in particular from the empty
list), the list has at most `mru_length` entries after every call of any finite sequence of
`ui_add_recent_file` calls, the last one included. -/
theorem C4_capacity_bound (app : App) (calls : List String)
    (hlen : app.recent_queue.length ≤ app.mru_length) :
    (∀ s, s ∈ ui_add_recent_files_trace app calls → s.recent_queue.length ≤ app.mru_length)
      ∧ (ui_add_recent_files app calls).recent_queue.length ≤ app.mru_length := by
  induction calls generalizing app with
  | nil =>
    refine ⟨?_, hlen⟩
    intro s hs
    simp [ui_add_recent_files_trace] at hs
  | cons f calls ih =>
    have hstep : (ui_add_recent_file app f).recent_queue.length
        ≤ (ui_add_recent_file app f).mru_length := by
      rw [ui_add_recent_file_recent_queue, ui_add_recent_file_mru_length]
      exact queue_step_length_le _ _ _ hlen
    have h := ih (ui_add_recent_file app f) hstep
    rw [ui_add_recent_file_mru_length] at h hstep
    refine ⟨?_, h.2⟩
    intro s hs
    rw [ui_add_recent_files_trace, List.mem_cons] at hs
    rcases hs with rfl | hs
    · exact hstep
    · exact h.1 s hs

/-- Witness of C4: five calls on the empty list of capacity three. -/
theorem C4_capacity_bound_witness :
    (∀ s, s ∈ ui_add_recent_files_trace app_empty_three
        ["a.txt", "b.txt", "c.txt", "d.txt", "b.txt"] →
        s.recent_queue.length ≤ app_empty_three.mru_length)
      ∧ (ui_add_recent_files app_empty_three
          ["a.txt", "b.txt", "c.txt", "d.txt", "b.txt"]).recent_queue.length
        ≤ app_empty_three.mru_length :=
  C4_capacity_bound app_empty_three ["a.txt", "b.txt", "c.txt", "d.txt", "b.txt"] (by decide)

/-! ## Front position, re-touching, eviction -/

/-- Counterexample to C5 as stated: with capacity zero and an empty list the new entry is pushed
and popped again at once, so after `ui_add_recent_file ("a.txt")` the list is empty and has no
entry at index 0. -/
theorem C5_front_counterexample :
    (ui_add_recent_file app_empty_zero "a.txt").recent_queue = []
      ∧ (ui_add_recent_file app_empty_zero "a.txt").recent_queue.head? ≠ some "a.txt" := by
  decide

/-- C5 (amended). When the capacity is at least one or the list is not empty, the entry at index 0
after `ui_add_recent_file (f)` is `f`, whether or not `f` was in the list before. -/
theorem C5_front_after_touch (app : App) (f : String)
    (h : 0 < app.mru_length ∨ app.recent_queue ≠ []) :
    (ui_add_recent_file app f).recent_queue.head? = some f := by
  rw [ui_add_recent_file_recent_queue]
  unfold queue_step
  split
  · rfl
  · split
    · next hlen =>
      cases hq : app.recent_queue with
      | nil =>
        rw [hq] at hlen h
        rcases h with h | h
        · simp only [List.length_nil] at hlen
          omega
        · exact absurd rfl h
      | cons x rest => rfl
    · rfl

/-- Witness of C5 (amended): a name that is new to the list `b.txt, a.txt` of capacity three. -/
theorem C5_front_after_touch_witness :
    (ui_add_recent_file app_two_of_three "c.txt").recent_queue.head? = some "c.txt" :=
  C5_front_after_touch app_two_of_three "c.txt" (Or.inl (by decide))

/-- C6. When `f` already occurs in the list, `ui_add_recent_file (f)` leaves `f` at index 0
followed by the old list without its first `f`: the length is unchanged and the result is a
permutation of the old list, so nothing is evicted. -/
theorem C6_retouch_moves_to_front (app : App) (f : String) (hf : f ∈ app.recent_queue) :
    (ui_add_recent_file app f).recent_queue = f :: app.recent_queue.erase f
      ∧ (ui_add_recent_file app f).recent_queue.head? = some f
      ∧ (ui_add_recent_file app f).recent_queue.length = app.recent_queue.length
      ∧ (ui_add_recent_file app f).recent_queue.Perm app.recent_queue := by
  have h1 : (ui_add_recent_file app f).recent_queue = f :: app.recent_queue.erase f := by
    rw [ui_add_recent_file_recent_queue]
    unfold queue_step
    rw [if_pos hf]
  refine ⟨h1, ?_, ?_, ?_⟩
  · rw [h1]; rfl
  · rw [h1, List.length_cons, List.length_erase_of_mem hf]
    have := List.length_pos_of_mem hf
    omega
  · rw [h1]
    exact (List.perm_cons_erase hf).symm

/-- Witness of C6: touching `a.txt`, the last entry of the list `b.txt, a.txt`. -/
theorem C6_retouch_moves_to_front_witness :
    (ui_add_recent_file app_two_of_three "a.txt").recent_queue
        = "a.txt" :: app_two_of_three.recent_queue.erase "a.txt"
      ∧ (ui_add_recent_file app_two_of_three "a.txt").recent_queue.head? = some "a.txt"
      ∧ (ui_add_recent_file app_two_of_three "a.txt").recent_queue.length
          = app_two_of_three.recent_queue.length
      ∧ (ui_add_recent_file app_two_of_three "a.txt").recent_queue.Perm
          app_two_of_three.recent_queue :=
  C6_retouch_moves_to_front app_two_of_three "a.txt" (by decide)

/-- C7. Starting from the empty list, calls of `ui_add_recent_file` on `mru_length + 1` pairwise
distinct names `f0, f1, ..., fc` in that order leave exactly `fc, ..., f1` in that order; `f0` is
not in the list. -/
theorem C7_oldest_is_evicted (app : App) (f0 : String) (rest : List String)
    (hempty : app.recent_queue = []) (hdistinct : (f0 :: rest).Nodup)
    (hcount : rest.length = app.mru_length) :
    (ui_add_recent_files app (f0 :: rest)).recent_queue = rest.reverse
      ∧ f0 ∉ (ui_add_recent_files app (f0 :: rest)).recent_queue := by
  have h1 : (ui_add_recent_files app (f0 :: rest)).recent_queue = rest.reverse := by
    rw [ui_add_recent_files_recent_queue, hempty, foldl_queue_step_nil]
    unfold latest_first
    rw [keep_first_of_nodup _ (List.nodup_reverse.2 hdistinct), List.reverse_cons, ← hcount,
      ← List.length_reverse rest, List.take_left]
  refine ⟨h1, ?_⟩
  rw [h1, List.mem_reverse]
  exact (List.nodup_cons.1 hdistinct).1

/-- Witness of C7: four distinct names on the empty list of capacity three. -/
theorem C7_oldest_is_evicted_witness :
    (ui_add_recent_files app_empty_three ("a.txt" :: ["b.txt", "c.txt", "d.txt"])).recent_queue
        = ["b.txt", "c.txt", "d.txt"].reverse
      ∧ "a.txt" ∉ (ui_add_recent_files app_empty_three
          ("a.txt" :: ["b.txt", "c.txt", "d.txt"])).recent_queue :=
  C7_oldest_is_evicted app_empty_three "a.txt" ["b.txt", "c.txt", "d.txt"] rfl (by decide) rfl

/-- C8. With capacity 3 and an empty list (whatever the menu shows), the calls of
`ui_add_recent_file` on `a.txt`, `b.txt`, `c.txt`, `d.txt`, `b.txt` leave, one after the other, the
lists `[a.txt]`, `[b.txt, a.txt]`, `[c.txt, b.txt, a.txt]`, `[d.txt, c.txt, b.txt]` and
`[b.txt, d.txt, c.txt]`. -/
theorem C8_spec_example_trace (menu : List String) (sensitive : Bool) (criticals : Nat) :
    (ui_add_recent_files_trace
        { recent_queue := [], mru_length := 3, recent_menu := menu,
          recent_files_sensitive := sensitive, criticals := criticals }
        ["a.txt", "b.txt", "c.txt", "d.txt", "b.txt"]).map App.recent_queue
      = [["a.txt"], ["b.txt", "a.txt"], ["c.txt", "b.txt", "a.txt"],
         ["d.txt", "c.txt", "b.txt"], ["b.txt", "d.txt", "c.txt"]] := by
  simp only [ui_add_recent_files_trace, List.map, ui_add_recent_file_recent_queue,
    ui_add_recent_file_mru_length]
  decide

/-! ## Trimming and the guard of `recent_file_loaded` -/

theorem ui_add_recent_file_over_capacity (app : App) (f : String) (hf : f ∉ app.recent_queue)
    (hover : app.mru_length < app.recent_queue.length) :
    (ui_add_recent_file app f).recent_queue = f :: app.recent_queue.dropLast
      ∧ (ui_add_recent_file app f).recent_queue.length = app.recent_queue.length := by
  have h1 : (ui_add_recent_file app f).recent_queue = f :: app.recent_queue.dropLast := by
    rw [ui_add_recent_file_recent_queue]
    unfold queue_step
    rw [if_neg hf, if_pos (by omega)]
    cases hq : app.recent_queue with
    | nil =>
      rw [hq] at hover
      simp at hover
    | cons x rest => rfl
  refine ⟨h1, ?_⟩
  rw [h1, List.length_cons, List.length_dropLast]
  have : 0 < app.recent_queue.length := by omega
  omega

/-- C9, the code at the failing input.  From the pre-populated list `a.txt, b.txt, c.txt` with
capacity one, `ui_add_recent_file ("d.txt")` pushes `d.txt` and pops one entry only: the list is
`d.txt, a.txt, b.txt`, of length three, still longer than the capacity, and not the single entry
`d.txt` that trimming down to the capacity leaves.  In the same call the loop of
`update_recent_menu` cuts the menu down to the capacity: the menu shows `d.txt` alone. -/
theorem C9_single_pop_leaves_list_over_capacity :
    (ui_add_recent_file app_three_of_one "d.txt").recent_queue = ["d.txt", "a.txt", "b.txt"]
      ∧ ¬ ((ui_add_recent_file app_three_of_one "d.txt").recent_queue.length
            ≤ app_three_of_one.mru_length)
      ∧ (ui_add_recent_file app_three_of_one "d.txt").recent_queue
          ≠ ("d.txt" :: app_three_of_one.recent_queue).take app_three_of_one.mru_length
      ∧ (ui_add_recent_file app_three_of_one "d.txt").recent_menu = ["d.txt"] := by
  decide

/-- C10. A call of `ui_add_recent_file` never takes the failure exit
`g_return_if_fail (item != NULL)` of `recent_file_loaded`: no critical warning is logged.  Either
the lookup in the queue finds nothing and the call goes through the push branch and
`update_recent_menu`, or it finds the name and the call is `recent_file_loaded`, whose own lookup on
the same queue then passes the guard. -/
theorem C10_touch_never_fails (app : App) (f : String) :
    (ui_add_recent_file app f).criticals = app.criticals
      ∧ ((g_queue_find_custom app.recent_queue f = none
            ∧ ∃ queue, ui_add_recent_file app f
                = update_recent_menu { app with recent_queue := queue })
          ∨ ((g_queue_find_custom app.recent_queue f).isSome = true
            ∧ ui_add_recent_file app f = recent_file_loaded app f
            ∧ (recent_file_loaded app f).criticals = app.criticals)) := by
  cases h : g_queue_find_custom app.recent_queue f with
  | none =>
    have hu : ∃ queue, ui_add_recent_file app f
        = update_recent_menu { app with recent_queue := queue } := by
      unfold ui_add_recent_file
      rw [h]
      exact ⟨_, rfl⟩
    refine ⟨?_, Or.inl ⟨rfl, hu⟩⟩
    obtain ⟨queue, hq⟩ := hu
    rw [hq, update_recent_menu_criticals]
  | some d =>
    have hu : ui_add_recent_file app f = recent_file_loaded app f := by
      unfold ui_add_recent_file
      rw [h]
    have hc : (recent_file_loaded app f).criticals = app.criticals := by
      unfold recent_file_loaded
      rw [h]
    exact ⟨hu ▸ hc, Or.inr ⟨rfl, hu, hc⟩⟩

/-! ## Further facts about the queue step -/

theorem queue_step_head (c : Nat) (q : List String) (f : String) (h : 0 < c ∨ q ≠ []) :
    (queue_step c q f).head? = some f := by
  unfold queue_step
  split
  · rfl
  · split
    · next hlen =>
      cases q with
      | nil =>
        rcases h with h | h
        · simp only [List.length_nil] at hlen
          omega
        · exact absurd rfl h
      | cons x rest => rfl
    · rfl

theorem queue_step_of_not_mem_of_lt (c : Nat) (q : List String) (f : String) (hf : f ∉ q)
    (hlen : q.length < c) : queue_step c q f = f :: q := by
  unfold queue_step
  rw [if_neg hf, if_neg (by omega)]

theorem queue_step_idem (c : Nat) (q : List String) (f : String) :
    queue_step c (queue_step c q f) f = queue_step c q f := by
  by_cases hf : f ∈ q
  · have h1 : queue_step c q f = f :: q.erase f := by
      unfold queue_step
      rw [if_pos hf]
    rw [h1]
    unfold queue_step
    rw [if_pos (List.mem_cons_self _ _), List.erase_cons_head]
  · by_cases hlen : q.length + 1 > c
    · cases q with
      | nil =>
        have h1 : queue_step c [] f = [] := by
          unfold queue_step
          rw [if_neg hf, if_pos hlen]
          rfl
        rw [h1, h1]
      | cons x rest =>
        have h1 : queue_step c (x :: rest) f = f :: (x :: rest).dropLast := by
          unfold queue_step
          rw [if_neg hf, if_pos hlen]
          rfl
        rw [h1]
        unfold queue_step
        rw [if_pos (List.mem_cons_self _ _), List.erase_cons_head]
    · have h1 : queue_step c q f = f :: q := by
        unfold queue_step
        rw [if_neg hf, if_neg hlen]
      rw [h1]
      unfold queue_step
      rw [if_pos (List.mem_cons_self _ _), List.erase_cons_head]

theorem iterate_g_queue_pop_tail (k : Nat) (l : List String) :
    Nat.iterate g_queue_pop_tail k l = l.take (l.length - k) := by
  induction k generalizing l with
  | zero => simp
  | succ k ih =>
    rw [Function.iterate_succ_apply, ih]
    unfold g_queue_pop_tail
    rw [List.dropLast_eq_take, List.take_take, List.length_take]
    congr 1
    omega

/-! ## Exact match, the activation callback and the menu listing -/

/-- C11. Membership is decided by equality of the strings only: when the list is shorter than the
capacity and `f` is equal to none of its entries (it may differ from one in letter case only),
`ui_add_recent_file (f)` leaves `f` followed by the old list, every old entry in its old place
behind `f`, and the length grows by exactly one. -/
theorem C11_exact_match_insert (app : App) (f : String)
    (hlen : app.recent_queue.length < app.mru_length)
    (hne : ∀ g, g ∈ app.recent_queue → g ≠ f) :
    (ui_add_recent_file app f).recent_queue = f :: app.recent_queue
      ∧ (ui_add_recent_file app f).recent_queue.length = app.recent_queue.length + 1 := by
  have hf : f ∉ app.recent_queue := fun h => hne f h rfl
  have h1 : (ui_add_recent_file app f).recent_queue = f :: app.recent_queue := by
    rw [ui_add_recent_file_recent_queue, queue_step_of_not_mem_of_lt _ _ _ hf hlen]
  exact ⟨h1, by rw [h1, List.length_cons]⟩

/-- Witness of C11: `A.txt` differs from the entry `a.txt` in letter case only. -/
theorem C11_exact_match_insert_witness :
    (ui_add_recent_file app_two_of_three "A.txt").recent_queue
        = "A.txt" :: app_two_of_three.recent_queue
      ∧ (ui_add_recent_file app_two_of_three "A.txt").recent_queue.length
          = app_two_of_three.recent_queue.length + 1 :=
  C11_exact_match_insert app_two_of_three "A.txt" (by decide) (by decide)

/-- C12. In `recent_file_activate_cb`, when `document_open_file` returns a value that is not
greater than -1 the callback leaves the state, and so the recent-files list, as it is; when it
returns a value greater than -1 and the text of the menu item is in the list, that name is moved
to the front of the list. -/
theorem C12_activate_failed_open_keeps_list (app : App) (menuitem : String) (result : Int) :
    (result ≤ -1 → recent_file_activate_cb app menuitem result = app)
      ∧ (result > -1 → menuitem ∈ app.recent_queue →
          (recent_file_activate_cb app menuitem result).recent_queue
            = menuitem :: app.recent_queue.erase menuitem) := by
  constructor
  · intro h
    unfold recent_file_activate_cb
    rw [if_neg (by omega)]
  · intro h hmem
    unfold recent_file_activate_cb
    rw [if_pos h]
    unfold recent_file_loaded
    cases hfind : g_queue_find_custom app.recent_queue menuitem with
    | none => exact absurd hmem ((g_queue_find_custom_eq_none _ _).1 hfind)
    | some d =>
      obtain ⟨hd, -⟩ := g_queue_find_custom_eq_some _ _ _ hfind
      simp only [g_queue_push_head, g_queue_remove, hd]

/-- Witness of C12: a failed and a successful open of `a.txt` from the list `b.txt, a.txt`. -/
theorem C12_activate_failed_open_keeps_list_witness :
    recent_file_activate_cb app_two_of_three "a.txt" (-1) = app_two_of_three
      ∧ (recent_file_activate_cb app_two_of_three "a.txt" 0).recent_queue
          = "a.txt" :: app_two_of_three.recent_queue.erase "a.txt" :=
  ⟨(C12_activate_failed_open_keeps_list app_two_of_three "a.txt" (-1)).1 (by decide),
    (C12_activate_failed_open_keeps_list app_two_of_three "a.txt" 0).2 (by decide) (by decide)⟩

theorem foldl_peek_nth_range (q : List String) (n : Nat) (menu : List String) :
    (List.range n).foldl
        (fun menu i =>
          match g_queue_peek_nth q i with
          | some filename => menu ++ [filename]
          | none => menu)
        menu
      = menu ++ q.take n := by
  induction n with
  | zero => simp
  | succ n ih =>
    rw [List.range_succ, List.foldl_append, ih, List.take_succ]
    unfold g_queue_peek_nth
    rw [List.foldl_cons, List.foldl_nil, List.get?_eq_getElem?]
    cases q[n]? with
    | none => simp
    | some x => simp

/-- C13. The function `ui_create_recent_menu` leaves the recent-files list (and the capacity) as
they are and appends to the menu one entry per element of the list, in the order of the list with
the front first: exactly its first `min (mru_length, length)` elements.  For an empty list these
are no entries at all. -/
theorem C13_create_menu_lists_front_first (app : App) :
    (ui_create_recent_menu app).recent_queue = app.recent_queue
      ∧ (ui_create_recent_menu app).mru_length = app.mru_length
      ∧ (ui_create_recent_menu app).recent_menu
          = app.recent_menu
            ++ app.recent_queue.take (min app.mru_length app.recent_queue.length)
      ∧ (ui_create_recent_menu { app with recent_queue := [] }).recent_menu
          = app.recent_menu := by
  refine ⟨?_, ?_, ?_, ?_⟩
  · unfold ui_create_recent_menu
    split <;> rfl
  · unfold ui_create_recent_menu
    split <;> rfl
  · unfold ui_create_recent_menu
    split
    · next h =>
      have hq : app.recent_queue = [] := List.length_eq_zero.1 h
      simp [hq]
    · simp only [g_queue_get_length]
      exact foldl_peek_nth_range _ _ _
  · rfl

/-! ## Changing the capacity -/

/-- C14. For `0 <= n < entries.length` the operation `set_capacity (n)` succeeds, leaves exactly
the first `n` entries of the old list in their order (the `n` most recent ones), and sets the
capacity to `n`. -/
theorem C14_set_capacity_trims (app : App) (n : Int) (hn : 0 ≤ n)
    (hlt : n < app.recent_queue.length) :
    (set_capacity app n).1 = none
      ∧ (set_capacity app n).2.recent_queue = app.recent_queue.take n.toNat
      ∧ ((set_capacity app n).2.recent_queue.length : Int) = n
      ∧ ((set_capacity app n).2.mru_length : Int) = n := by
  have hlt2 : n.toNat < app.recent_queue.length := by omega
  have h1 : set_capacity app n
      = (none, { app with mru_length := n.toNat,
                          recent_queue := app.recent_queue.take n.toNat }) := by
    unfold set_capacity
    rw [if_neg (by omega), if_pos hlt2, iterate_g_queue_pop_tail]
    congr 3
    omega
  rw [h1]
  refine ⟨rfl, rfl, ?_, ?_⟩
  · show ((app.recent_queue.take n.toNat).length : Int) = n
    rw [List.length_take, Nat.min_eq_left (Nat.le_of_lt hlt2)]
    omega
  · show ((n.toNat : Nat) : Int) = n
    omega

/-- Witness of C14: the capacity of the list `c.txt, b.txt, a.txt` is set to one. -/
theorem C14_set_capacity_trims_witness :
    (set_capacity app_three_of_three 1).1 = none
      ∧ (set_capacity app_three_of_three 1).2.recent_queue
          = app_three_of_three.recent_queue.take (1 : Int).toNat
      ∧ ((set_capacity app_three_of_three 1).2.recent_queue.length : Int) = 1
      ∧ ((set_capacity app_three_of_three 1).2.mru_length : Int) = 1 :=
  C14_set_capacity_trims app_three_of_three 1 (by decide) (by decide)

/-- C15. For `n < 0` the operation `set_capacity (n)` fails with `InvalidArgument` and the state
it leaves is the state before the call: the capacity and the list are unchanged. -/
theorem C15_set_capacity_rejects_negative (app : App) (n : Int) (hn : n < 0) :
    set_capacity app n = (some SetCapacityError.InvalidArgument, app)
      ∧ (set_capacity app n).2.mru_length = app.mru_length
      ∧ (set_capacity app n).2.recent_queue = app.recent_queue := by
  have h1 : set_capacity app n = (some SetCapacityError.InvalidArgument, app) := by
    unfold set_capacity
    rw [if_pos hn]
  rw [h1]
  exact ⟨rfl, rfl, rfl⟩

/-- Witness of C15: the capacity -1 on the list `c.txt, b.txt, a.txt`. -/
theorem C15_set_capacity_rejects_negative_witness :
    set_capacity app_three_of_three (-1) = (some SetCapacityError.InvalidArgument, app_three_of_three)
      ∧ (set_capacity app_three_of_three (-1)).2.mru_length = app_three_of_three.mru_length
      ∧ (set_capacity app_three_of_three (-1)).2.recent_queue
          = app_three_of_three.recent_queue :=
  C15_set_capacity_rejects_negative app_three_of_three (-1) (by decide)

/-! ## The empty string -/

/-- C16. With a capacity of at least one, `ui_add_recent_file ("")` treats the empty string as
any other name: afterwards the empty string is the entry at index 0, and it occurs exactly once
when the list had no duplicates before the call. -/
theorem C16_empty_string_is_ordinary_key (app : App) (hc : 1 ≤ app.mru_length) :
    (ui_add_recent_file app "").recent_queue.head? = some ""
      ∧ (app.recent_queue.Nodup → (ui_add_recent_file app "").recent_queue.count "" = 1) := by
  have hhead : (ui_add_recent_file app "").recent_queue.head? = some "" := by
    rw [ui_add_recent_file_recent_queue]
    exact queue_step_head _ _ _ (Or.inl hc)
  refine ⟨hhead, ?_⟩
  intro hnodup
  have hnd : (ui_add_recent_file app "").recent_queue.Nodup := by
    rw [ui_add_recent_file_recent_queue]
    exact queue_step_nodup _ _ _ hnodup
  exact List.count_eq_one_of_mem hnd (List.mem_of_mem_head? hhead)

/-- Witness of C16: the empty string is added to the list `b.txt, a.txt` of capacity three. -/
theorem C16_empty_string_is_ordinary_key_witness :
    (ui_add_recent_file app_two_of_three "").recent_queue.head? = some ""
      ∧ (ui_add_recent_file app_two_of_three "").recent_queue.count "" = 1 :=
  ⟨(C16_empty_string_is_ordinary_key app_two_of_three (by decide)).1,
    (C16_empty_string_is_ordinary_key app_two_of_three (by decide)).2 (by decide)⟩

/-! ## The menu and the sensitivity of its item -/

theorem update_recent_menu_of_nil (app : App) (hq : app.recent_queue = []) :
    update_recent_menu app = { app with recent_files_sensitive := false } := by
  unfold update_recent_menu
  rw [if_pos (by rw [hq]; rfl)]

theorem update_recent_menu_of_cons (app : App) (f : String) (rest : List String)
    (hq : app.recent_queue = f :: rest) :
    update_recent_menu app
      = { app with
          recent_files_sensitive := true,
          recent_menu :=
            f :: (if app.recent_menu.length % 2 ^ 32
                      > (((app.mru_length : Int) - 1) % (2 : Int) ^ 32).toNat
                  then app.recent_menu.take (((app.mru_length : Int) - 1) % (2 : Int) ^ 32).toNat
                  else app.recent_menu) } := by
  unfold update_recent_menu
  rw [if_neg (by rw [hq]; simp [g_queue_get_length])]
  simp only [hq, List.head?_cons]

theorem mru_length_sub_one_wrap (c : Nat) (h1 : 1 ≤ c) (h2 : c < 2 ^ 32) :
    (((c : Int) - 1) % (2 : Int) ^ 32).toNat = c - 1 := by
  rw [Int.emod_eq_of_lt (by omega) (by omega)]
  omega

/-- C17. Taking the menu as the list of its item labels: when the menu labels equal the
recent-files list and the length of the list is at most `mru_length` (a value of a 32-bit C
integer), then after `ui_add_recent_file (f)` the menu labels again equal the list, for every
`f`, in the new-file branch through `update_recent_menu` as in the already-present branch through
`recent_file_loaded`.  The absence of duplicates is not needed for this. -/
theorem C17_menu_stays_in_sync (app : App) (f : String)
    (hsync : app.recent_menu = app.recent_queue)
    (hlen : app.recent_queue.length ≤ app.mru_length)
    (hrange : app.mru_length < 2 ^ 32) :
    (ui_add_recent_file app f).recent_menu = (ui_add_recent_file app f).recent_queue := by
  unfold ui_add_recent_file
  cases hfind : g_queue_find_custom app.recent_queue f with
  | some d =>
    obtain ⟨hd, -⟩ := g_queue_find_custom_eq_some _ _ _ hfind
    unfold recent_file_loaded
    simp only [hfind, g_queue_push_head, g_queue_remove, hd, hsync]
  | none =>
    simp only [g_queue_push_head, g_queue_get_length, g_queue_pop_tail, List.length_cons]
    by_cases hfull : app.recent_queue.length + 1 > app.mru_length
    · rw [if_pos hfull]
      cases hq : app.recent_queue with
      | nil =>
        rw [update_recent_menu_of_nil _ (by rfl)]
        show app.recent_menu = [].dropLast
        rw [hsync, hq]
        rfl
      | cons x rest =>
        rw [hq] at hfull hlen
        simp only [List.length_cons] at hfull hlen
        have hc : app.mru_length = rest.length + 1 := by omega
        rw [update_recent_menu_of_cons _ f (x :: rest).dropLast (by rfl)]
        show f :: (if app.recent_menu.length % 2 ^ 32
                      > (((app.mru_length : Int) - 1) % (2 : Int) ^ 32).toNat
                  then app.recent_menu.take (((app.mru_length : Int) - 1) % (2 : Int) ^ 32).toNat
                  else app.recent_menu) = (f :: x :: rest).dropLast
        rw [mru_length_sub_one_wrap _ (by omega) hrange, hsync, hq, hc, List.length_cons,
          Nat.mod_eq_of_lt (by omega), if_pos (by omega), List.dropLast_cons₂,
          List.dropLast_eq_take]
        rfl
    · rw [if_neg hfull]
      rw [update_recent_menu_of_cons _ f app.recent_queue (by rfl)]
      show f :: (if app.recent_menu.length % 2 ^ 32
                    > (((app.mru_length : Int) - 1) % (2 : Int) ^ 32).toNat
                then app.recent_menu.take (((app.mru_length : Int) - 1) % (2 : Int) ^ 32).toNat
                else app.recent_menu) = f :: app.recent_queue
      rw [mru_length_sub_one_wrap _ (by omega) hrange, hsync, Nat.mod_eq_of_lt (by omega),
        if_neg (by omega)]

/-- Witness of C17: a new name on the full list `c.txt, b.txt, a.txt` of capacity three. -/
theorem C17_menu_stays_in_sync_witness :
    (ui_add_recent_file app_three_of_three "d.txt").recent_menu
      = (ui_add_recent_file app_three_of_three "d.txt").recent_queue :=
  C17_menu_stays_in_sync app_three_of_three "d.txt" rfl (by decide) (by decide)

/-! ## Idempotence, the guard of `recent_file_loaded`, sensitivity -/

/-- C18. For every state (any capacity, any list, duplicates included) and every name `f`, two
calls of `ui_add_recent_file (f)` in a row leave the same recent-files list as one call. -/
theorem C18_touch_idempotent (app : App) (f : String) :
    (ui_add_recent_file (ui_add_recent_file app f) f).recent_queue
      = (ui_add_recent_file app f).recent_queue := by
  rw [ui_add_recent_file_recent_queue, ui_add_recent_file_mru_length,
    ui_add_recent_file_recent_queue, queue_step_idem]

/-- C19. When `f` is not in the recent-files list, `recent_file_loaded (f)` returns at its guard
`g_return_if_fail (item != NULL)`: one critical warning is logged, and the list, the menu, the
capacity and the sensitivity of the menu item are as before the call. -/
theorem C19_recent_file_loaded_guard_is_atomic (app : App) (f : String)
    (hf : f ∉ app.recent_queue) :
    recent_file_loaded app f = { app with criticals := app.criticals + 1 }
      ∧ (recent_file_loaded app f).recent_queue = app.recent_queue
      ∧ (recent_file_loaded app f).recent_menu = app.recent_menu
      ∧ (recent_file_loaded app f).criticals = app.criticals + 1 := by
  have h1 : recent_file_loaded app f = { app with criticals := app.criticals + 1 } := by
    unfold recent_file_loaded
    rw [(g_queue_find_custom_eq_none _ _).2 hf]
  rw [h1]
  exact ⟨rfl, rfl, rfl, rfl⟩

/-- Witness of C19: `z.txt` is not in the list `b.txt, a.txt`. -/
theorem C19_recent_file_loaded_guard_is_atomic_witness :
    recent_file_loaded app_two_of_three "z.txt"
        = { app_two_of_three with criticals := app_two_of_three.criticals + 1 }
      ∧ (recent_file_loaded app_two_of_three "z.txt").recent_queue
          = app_two_of_three.recent_queue
      ∧ (recent_file_loaded app_two_of_three "z.txt").recent_menu
          = app_two_of_three.recent_menu
      ∧ (recent_file_loaded app_two_of_three "z.txt").criticals
          = app_two_of_three.criticals + 1 :=
  C19_recent_file_loaded_guard_is_atomic app_two_of_three "z.txt" (by decide)

theorem update_recent_menu_sensitive (app : App) :
    (update_recent_menu app).recent_files_sensitive = true ↔ app.recent_queue ≠ [] := by
  cases hq : app.recent_queue with
  | nil =>
    rw [update_recent_menu_of_nil _ hq]
    simp
  | cons x rest =>
    rw [update_recent_menu_of_cons _ x rest hq]
    simp

/-- C20. After `ui_add_recent_file (f)` with `f` not in the list before, the menu item
`recent_files1` is sensitive if and only if the recent-files list is not empty: it is sensitive
whenever `mru_length` is at least one, and insensitive when `mru_length` is 0 and the list was
empty, the new entry being evicted at once. -/
theorem C20_recent_item_sensitive_iff_nonempty (app : App) (f : String)
    (hf : f ∉ app.recent_queue) :
    ((ui_add_recent_file app f).recent_files_sensitive = true
        ↔ (ui_add_recent_file app f).recent_queue ≠ [])
      ∧ (1 ≤ app.mru_length → (ui_add_recent_file app f).recent_files_sensitive = true)
      ∧ (app.mru_length = 0 → app.recent_queue = [] →
          (ui_add_recent_file app f).recent_queue = []
            ∧ (ui_add_recent_file app f).recent_files_sensitive = false) := by
  have hiff : (ui_add_recent_file app f).recent_files_sensitive = true
      ↔ (ui_add_recent_file app f).recent_queue ≠ [] := by
    unfold ui_add_recent_file
    rw [(g_queue_find_custom_eq_none _ _).2 hf]
    simp only [update_recent_menu_sensitive, update_recent_menu_recent_queue]
  refine ⟨hiff, ?_, ?_⟩
  · intro hc
    rw [hiff]
    intro hnil
    have hhead := queue_step_head app.mru_length app.recent_queue f (Or.inl hc)
    rw [← ui_add_recent_file_recent_queue, hnil] at hhead
    simp at hhead
  · intro hc hq
    have hnil : (ui_add_recent_file app f).recent_queue = [] := by
      rw [ui_add_recent_file_recent_queue, hc, hq]
      rfl
    refine ⟨hnil, ?_⟩
    cases hs : (ui_add_recent_file app f).recent_files_sensitive with
    | false => rfl
    | true => exact absurd hnil (hiff.1 hs)

/-- Witness of C20: a first name on the empty list, with capacity three and with capacity zero. -/
theorem C20_recent_item_sensitive_iff_nonempty_witness :
    (ui_add_recent_file app_empty_three "a.txt").recent_files_sensitive = true
      ∧ (ui_add_recent_file app_empty_zero "a.txt").recent_queue = []
      ∧ (ui_add_recent_file app_empty_zero "a.txt").recent_files_sensitive = false :=
  ⟨(C20_recent_item_sensitive_iff_nonempty app_empty_three "a.txt" (by decide)).2.1 (by decide),
    (C20_recent_item_sensitive_iff_nonempty app_empty_zero "a.txt" (by decide)).2.2 rfl rfl⟩

/-! ## Status bar and save buttons -/

theorem glong_add_of_in_range (G_MAXLONG a b : Int) (hlo : -(G_MAXLONG + 1) ≤ a + b)
    (hhi : a + b ≤ G_MAXLONG) : glong_add G_MAXLONG a b = a + b := by
  unfold glong_add
  rw [Int.emod_eq_of_lt (by omega) (by omega)]
  omega

theorem glong_add_at_max (G_MAXLONG : Int) :
    glong_add G_MAXLONG G_MAXLONG 1 = -(G_MAXLONG + 1) := by
  unfold glong_add
  have h : G_MAXLONG + 1 + (G_MAXLONG + 1) = 2 * (G_MAXLONG + 1) := by omega
  rw [h, Int.emod_self]
  omega

/-- At `last_time = G_MAXLONG` the sum of line 72 is not a `glong`: it wraps around to the least
`glong`, and an overridable message is shown at every later reading of the clock. -/
theorem ui_set_statusbar_sum_wraps (G_MAXLONG : Int) (s : StatusBar) (now : Int) (text : String)
    (hlast : s.last_time = G_MAXLONG) (hnow : -(G_MAXLONG + 1) < now) :
    ui_set_statusbar G_MAXLONG s now text true
      = { s with messages := text :: s.messages.tail } := by
  unfold ui_set_statusbar
  have hgt : now > glong_add G_MAXLONG s.last_time GEANY_STATUS_TIMEOUT := by
    rw [hlast]
    unfold GEANY_STATUS_TIMEOUT
    rw [glong_add_at_max]
    exact hnow
  simp only [Bool.true_eq_false, if_false, if_pos hgt]
  rfl

/-- C21. With the state (message stack, `last_time`) and the clock `now` in seconds:
`ui_set_statusbar (text, FALSE)` always replaces the shown message by `text` and sets `last_time`
to `now`; `ui_set_statusbar (text, TRUE)` replaces the shown message by `text` when
`now > last_time + 1` and otherwise leaves the state as it is, and it never changes `last_time`.
Hence a message that allows override is ignored as long as a message set without override has
not timed out.  The rule for `TRUE` is that of the times for which `last_time + 1` is a `glong`,
that is for a `glong` value of `last_time` below `G_MAXLONG`. -/
theorem C21_statusbar_override_rule (G_MAXLONG : Int) (s : StatusBar) (now : Int)
    (text : String) :
    ui_set_statusbar G_MAXLONG s now text false
        = { messages := text :: s.messages.tail, last_time := now }
      ∧ (ui_set_statusbar G_MAXLONG s now text false).messages.head? = some text
      ∧ (-(G_MAXLONG + 1) ≤ s.last_time → s.last_time < G_MAXLONG →
          ui_set_statusbar G_MAXLONG s now text true
            = (if now > s.last_time + 1 then { s with messages := text :: s.messages.tail }
                else s))
      ∧ (ui_set_statusbar G_MAXLONG s now text true).last_time = s.last_time
      ∧ (-(G_MAXLONG + 1) ≤ now → now < G_MAXLONG →
          ∀ later other, later ≤ now + 1 →
            ui_set_statusbar G_MAXLONG (ui_set_statusbar G_MAXLONG s now text false) later other
                true
              = ui_set_statusbar G_MAXLONG s now text false) := by
  have h1 : ui_set_statusbar G_MAXLONG s now text false
      = { messages := text :: s.messages.tail, last_time := now } := rfl
  refine ⟨h1, by rw [h1]; rfl, ?_, ?_, ?_⟩
  · intro hlo hhi
    unfold ui_set_statusbar
    have hsum : glong_add G_MAXLONG s.last_time GEANY_STATUS_TIMEOUT = s.last_time + 1 := by
      unfold GEANY_STATUS_TIMEOUT
      exact glong_add_of_in_range _ _ _ (by omega) (by omega)
    simp only [Bool.true_eq_false, if_false, hsum]
    rfl
  · unfold ui_set_statusbar
    simp only [Bool.true_eq_false, if_false]
    split <;> rfl
  · intro hlo hhi later other hle
    rw [h1]
    unfold ui_set_statusbar
    have hsum : glong_add G_MAXLONG now GEANY_STATUS_TIMEOUT = now + 1 := by
      unfold GEANY_STATUS_TIMEOUT
      exact glong_add_of_in_range _ _ _ (by omega) (by omega)
    have hnot : ¬ later > now + 1 := by omega
    simp only [Bool.true_eq_false, if_false, hsum, if_neg hnot]

/-- Witness of C21: with 64-bit times, an overridable message one second after a message set at
second 100 is ignored, at the first call through the rule for `last_time = 100` and at the second
through the rule for two calls in a row. -/
theorem C21_statusbar_override_rule_witness :
    ui_set_statusbar G_MAXLONG_64 statusbar_ready 101 "line 3" true
        = (if (101 : Int) > statusbar_ready.last_time + 1 then
            { statusbar_ready with messages := "line 3" :: statusbar_ready.messages.tail }
          else statusbar_ready)
      ∧ ui_set_statusbar G_MAXLONG_64
            (ui_set_statusbar G_MAXLONG_64 statusbar_ready 100 "saved" false) 101 "line 3" true
          = ui_set_statusbar G_MAXLONG_64 statusbar_ready 100 "saved" false :=
  ⟨(C21_statusbar_override_rule G_MAXLONG_64 statusbar_ready 101 "line 3").2.2.1
      (by decide) (by decide),
    (C21_statusbar_override_rule G_MAXLONG_64 statusbar_ready 100 "saved").2.2.2.2
      (by decide) (by decide) 101 "line 3" (by decide)⟩

theorem dirty_tabs_loop (doc_list : Nat → document) (n : Nat) :
    (List.range n).foldl
        (fun dirty_tabs i =>
          if (!dirty_tabs && (doc_list i).is_valid && (doc_list i).changed) = true then true
          else dirty_tabs)
        false = true
      ↔ ∃ i, i < n ∧ (doc_list i).is_valid = true ∧ (doc_list i).changed = true := by
  induction n with
  | zero => simp
  | succ n ih =>
    rw [List.range_succ, List.foldl_append, List.foldl_cons, List.foldl_nil]
    constructor
    · intro h
      split at h
      · next hc =>
        simp only [Bool.and_eq_true] at hc
        exact ⟨n, Nat.lt_succ_self n, hc.1.2, hc.2⟩
      · obtain ⟨i, hi, hv⟩ := ih.1 h
        exact ⟨i, Nat.lt_succ_of_lt hi, hv⟩
    · rintro ⟨i, hi, hv, hch⟩
      split
      · rfl
      · next hc =>
        rcases Nat.lt_succ_iff_lt_or_eq.1 hi with hlt | heq
        · exact ih.2 ⟨i, hlt, hv, hch⟩
        · subst heq
          simp only [hv, hch, Bool.and_true, Bool.not_eq_true', Bool.not_eq_false] at hc
          exact hc

/-- C22. After `ui_save_buttons_toggle (enable)` the buttons `save_buttons[0]` and
`save_buttons[1]` have the sensitivity `enable`, and the save-all controls `save_buttons[2]` and
`save_buttons[3]` are sensitive if and only if some index `i` below the number of notebook pages
has `doc_list[i].is_valid` and `doc_list[i].changed`; this does not depend on `enable`. -/
theorem C22_save_all_enablement (save_buttons : Nat → Bool) (doc_list : Nat → document)
    (n_pages : Nat) (enable : Bool) :
    ui_save_buttons_toggle save_buttons doc_list n_pages enable 0 = enable
      ∧ ui_save_buttons_toggle save_buttons doc_list n_pages enable 1 = enable
      ∧ (ui_save_buttons_toggle save_buttons doc_list n_pages enable 2 = true
          ↔ ∃ i, i < n_pages ∧ (doc_list i).is_valid = true ∧ (doc_list i).changed = true)
      ∧ (ui_save_buttons_toggle save_buttons doc_list n_pages enable 3 = true
          ↔ ∃ i, i < n_pages ∧ (doc_list i).is_valid = true ∧ (doc_list i).changed = true)
      ∧ ui_save_buttons_toggle save_buttons doc_list n_pages enable 2
          = ui_save_buttons_toggle save_buttons doc_list n_pages (!enable) 2
      ∧ ui_save_buttons_toggle save_buttons doc_list n_pages enable 3
          = ui_save_buttons_toggle save_buttons doc_list n_pages (!enable) 3 := by
  refine ⟨?_, ?_, ?_, ?_, ?_, ?_⟩
  · simp [ui_save_buttons_toggle, Function.update]
  · simp [ui_save_buttons_toggle, Function.update]
  · rw [← dirty_tabs_loop]
    simp [ui_save_buttons_toggle, Function.update]
  · rw [← dirty_tabs_loop]
    simp [ui_save_buttons_toggle, Function.update]
  · simp [ui_save_buttons_toggle, Function.update]
  · simp [ui_save_buttons_toggle, Function.update]

/-! ## Header files and the build buttons -/

theorem strrchr_eq_none (l : List Char) (c : Char) : strrchr l c = none ↔ c ∉ l := by
  induction l with
  | nil => simp [strrchr]
  | cons x xs ih =>
    unfold strrchr
    cases h : strrchr xs c with
    | some ext =>
      have hmem : c ∈ xs := by
        by_contra hn
        rw [ih.2 hn] at h
        exact Option.noConfusion h
      simp [hmem]
    | none =>
      have hn : c ∉ xs := ih.1 h
      by_cases hx : x = c
      · simp [hx]
      · simp [hx, hn, Ne.symm hx]

theorem strrchr_append (pre post : List Char) (c : Char) (h : c ∉ post) :
    strrchr (pre ++ c :: post) c = some (c :: post) := by
  induction pre with
  | nil =>
    show strrchr (c :: post) c = some (c :: post)
    unfold strrchr
    rw [(strrchr_eq_none post c).2 h]
    simp
  | cons x pre ih =>
    show strrchr (x :: (pre ++ c :: post)) c = some (c :: post)
    unfold strrchr
    rw [ih]

theorem strrchr_eq_some (l : List Char) (c : Char) (ext : List Char)
    (h : strrchr l c = some ext) :
    ∃ pre post, l = pre ++ c :: post ∧ c ∉ post ∧ ext = c :: post := by
  induction l with
  | nil => simp [strrchr] at h
  | cons x xs ih =>
    unfold strrchr at h
    cases hxs : strrchr xs c with
    | some e =>
      rw [hxs] at h
      have hee : e = ext := Option.some.inj h
      subst hee
      obtain ⟨pre, post, hl, hn, he⟩ := ih hxs
      exact ⟨x :: pre, post, by simp [hl], hn, he⟩
    | none =>
      rw [hxs] at h
      by_cases hx : x = c
      · rw [if_pos hx] at h
        exact ⟨[], xs, by simp [hx], (strrchr_eq_none xs c).1 hxs,
          by rw [← hx]; exact (Option.some.inj h).symm⟩
      · rw [if_neg hx] at h
        exact Option.noConfusion h

theorem matches_dot_h_append (pre post : List Char) :
    matches_dot_h (pre ++ '.' :: 'h' :: post) = true := by
  induction pre with
  | nil => simp [matches_dot_h]
  | cons x pre ih =>
    show matches_dot_h (x :: (pre ++ '.' :: 'h' :: post)) = true
    unfold matches_dot_h
    rw [ih, Bool.or_true]

theorem is_c_header_eq_true (name : String) :
    is_c_header (some name) = true
      ↔ ∃ pre post, name.data = pre ++ '.' :: 'h' :: post ∧ '.' ∉ post := by
  unfold is_c_header
  constructor
  · intro h
    cases hext : strrchr name.data '.' with
    | none => simp [hext] at h
    | some ext =>
      obtain ⟨pre, post, hl, hn, he⟩ := strrchr_eq_some _ _ _ hext
      simp only [hext, he, decide_eq_true_eq] at h
      cases post with
      | nil => simp at h
      | cons y post =>
        simp only [List.getD_cons_succ, List.getD_cons_zero] at h
        rw [h] at hl hn
        exact ⟨pre, post, hl, fun hm => hn (List.mem_cons_of_mem _ hm)⟩
  · rintro ⟨pre, post, hl, hn⟩
    have hn2 : '.' ∉ 'h' :: post := by
      intro hm
      rcases List.mem_cons.1 hm with h | h
      · exact absurd h (by decide)
      · exact hn h
    simp [hl, strrchr_append pre ('h' :: post) '.' hn2]

/-- Counterexample to C23 as stated: the name `main.h.c` matches the pattern `*.h*`, a `.` being
immediately followed by `h`, but `strrchr` finds the last dot, which `c` follows, and
`is_c_header` returns FALSE. -/
theorem C23_is_c_header_counterexample :
    matches_dot_h "main.h.c".data = true ∧ is_c_header (some "main.h.c") = false := by
  decide

/-- C23 (amended). The function `is_c_header` returns TRUE exactly for the names in which the
last `.` is immediately followed by `h`; every such name matches the pattern `*.h*`.  It returns
FALSE for a NULL name and for a name without `.`. -/
theorem C23_is_c_header_last_dot (name : String) :
    (is_c_header (some name) = true
        ↔ ∃ pre post, name.data = pre ++ '.' :: 'h' :: post ∧ '.' ∉ post)
      ∧ (is_c_header (some name) = true → matches_dot_h name.data = true)
      ∧ is_c_header none = false
      ∧ ('.' ∉ name.data → is_c_header (some name) = false) := by
  refine ⟨is_c_header_eq_true name, ?_, rfl, ?_⟩
  · intro h
    obtain ⟨pre, post, hl, -⟩ := (is_c_header_eq_true name).1 h
    rw [hl]
    exact matches_dot_h_append pre post
  · intro hn
    unfold is_c_header
    simp only [(strrchr_eq_none name.data '.').2 hn]

/-- Witness of C23 (amended): `main.hpp` is a header name, `Makefile` has no dot. -/
theorem C23_is_c_header_last_dot_witness :
    matches_dot_h "main.hpp".data = true ∧ is_c_header (some "Makefile") = false :=
  ⟨(C23_is_c_header_last_dot "main.hpp").2.1 (by decide),
    (C23_is_c_header_last_dot "Makefile").2.2.2 (by decide)⟩

/-- C24. For a document of file type C or C++, after `ui_update_build_menu` the compile button is
sensitive if and only if the document has a file name, `is_c_header` of that name is FALSE and
`can_compile` is set, and the run button is sensitive if and only if the document has a file name
and `can_exec` is set, whether the name is a header or not.  The flags are the ones the function
reads: they are those of the file type, except that a build for Windows clears `can_compile`
first. -/
theorem C24_compile_disabled_for_headers (g_os_win32 : Bool) (doc_list : Nat → document)
    (w : BuildWidgets) (idx : Int) (ft : filetype)
    (hidx : 0 ≤ idx) (hft : (doc_list idx.toNat).file_type = some ft)
    (hid : ft.id = filetype_id.GEANY_FILETYPES_C ∨ ft.id = filetype_id.GEANY_FILETYPES_CPP) :
    ((ui_update_build_menu g_os_win32 doc_list w idx).compile_button = true
        ↔ (doc_list idx.toNat).file_name.isSome = true
          ∧ is_c_header (doc_list idx.toNat).file_name = false
          ∧ (menu_items_after_ifdef g_os_win32 ft.menu_items).can_compile = true)
      ∧ ((ui_update_build_menu g_os_win32 doc_list w idx).run_button = true
          ↔ (doc_list idx.toNat).file_name.isSome = true
            ∧ (menu_items_after_ifdef g_os_win32 ft.menu_items).can_exec = true)
      ∧ (menu_items_after_ifdef g_os_win32 ft.menu_items).can_exec = ft.menu_items.can_exec
      ∧ menu_items_after_ifdef false ft.menu_items = ft.menu_items := by
  have hne : ¬ idx = -1 := by omega
  have hexec : (menu_items_after_ifdef g_os_win32 ft.menu_items).can_exec
      = ft.menu_items.can_exec := by
    unfold menu_items_after_ifdef
    split <;> rfl
  refine ⟨?_, ?_, hexec, rfl⟩
  · unfold ui_update_build_menu
    rw [if_neg hne]
    rcases hid with h | h
    · simp [hft, h, and_assoc]
    · simp [hft, h, and_assoc]
  · unfold ui_update_build_menu
    rw [if_neg hne]
    rcases hid with h | h
    · simp [hft, h]
    · simp [hft, h]

/-- Witness of C24: the header at index 0 and the source file at index 1 of the example array,
in a build that is not for Windows. -/
theorem C24_compile_disabled_for_headers_witness :
    (ui_update_build_menu false doc_list_example build_widgets_off 0).compile_button = false
      ∧ (ui_update_build_menu false doc_list_example build_widgets_off 0).run_button = true
      ∧ (ui_update_build_menu false doc_list_example build_widgets_off 1).compile_button
          = true := by
  have h0 := C24_compile_disabled_for_headers false doc_list_example build_widgets_off 0
    { id := filetype_id.GEANY_FILETYPES_C,
      menu_items := { can_compile := true, can_link := true, can_exec := true } }
    (by decide) rfl (Or.inl rfl)
  have h1 := C24_compile_disabled_for_headers false doc_list_example build_widgets_off 1
    { id := filetype_id.GEANY_FILETYPES_C,
      menu_items := { can_compile := true, can_link := true, can_exec := true } }
    (by decide) rfl (Or.inl rfl)
  refine ⟨?_, h0.2.1.2 ⟨rfl, rfl⟩, h1.1.2 ⟨rfl, by decide, rfl⟩⟩
  cases hc : (ui_update_build_menu false doc_list_example build_widgets_off 0).compile_button with
  | false => rfl
  | true => exact absurd (h0.1.1 hc).2.1 (by decide)

end Geany
